import Mathlib

/-!
Shallow embedding of the HIRE-Multi-Cancer simulation (src/classes.py) and
verification of its specified properties.

Modelling conventions:
* numpy floating point values are modelled as exact rationals (ℚ);
* the process-wide random source is modelled by explicit draw parameters /
  draw streams handed to each sampling site, each draw lying in [0, 1);
* a python dictionary restricted to the three keys ever used by the code
  is modelled by a structure with optional fields, a missing key being
  `none` (dict access on a missing key is a KeyError);
* fallible numpy array indexing is modelled in the Except monad, with an
  error string recording which statement raised;
* the external smoothing filter (scipy.signal.savgol_filter) is an opaque
  external collaborator and is modelled as a function parameter.
-/

set_option autoImplicit false

/-- np.searchsorted with the default side (left) on a sorted list: the index
of the first element that is greater than or equal to `v`, or the length of
the list when every element is smaller. -/
def searchsorted (xs : List ℚ) (v : ℚ) : ℕ :=
  match xs with
  | [] => 0
  | x :: rest => if v ≤ x then 0 else searchsorted rest v + 1

/-- Helper for `cumsum`: running sums continuing from `acc`. -/
def cumsumFrom (acc : ℚ) : List ℚ → List ℚ
  | [] => []
  | x :: rest => (acc + x) :: cumsumFrom (acc + x) rest

/-- np.cumsum: the list of partial sums (each entry includes its own bin). -/
def cumsum (xs : List ℚ) : List ℚ := cumsumFrom 0 xs

/-- The patient history dictionary.  The code only ever uses the keys
"Healthy", "Cancer" and "Other Death", so the dictionary is modelled by a
structure with one optional field per key (`none` = key absent). -/
structure History where
  healthy : Option ℤ
  cancer : Option ℤ
  otherDeath : Option ℤ
deriving DecidableEq, Repr

/-- The Patient object: pid, (starting) age, and the history dictionary. -/
structure Patient where
  pid : ℕ
  age : ℤ
  history : History
deriving DecidableEq, Repr

/-- Patient.__init__(pid, starting_age): history = \x7b'Healthy': age\x7d. -/
def Patient.init (pid : ℕ) (starting_age : ℤ) : Patient :=
  { pid := pid, age := starting_age,
    history := { healthy := some starting_age, cancer := none, otherDeath := none } }

/-- Patient.reset: history is cleared to \x7b'Healthy': self.age\x7d. -/
def Patient.reset (p : Patient) : Patient :=
  { p with history := { healthy := some p.age, cancer := none, otherDeath := none } }

/-- Patient.run(cancer_pdf): resets, samples the age of other-cause death
from `condCDF` with draw `u1`, samples the cancer onset age from
cumsum(cancer_pdf) with draw `u2`, records Cancer when it happens no later
than death, always records Other Death, and returns the history. -/
def Patient.run (p : Patient) (condCDF cancer_pdf : List ℚ) (u1 u2 : ℚ) : History :=
  let q := p.reset
  let ac_age : ℤ := (searchsorted condCDF u1 : ℤ) + q.age
  let cancer_age : ℤ := (searchsorted (cumsum cancer_pdf) u2 : ℤ) + q.age
  let hist1 := if cancer_age ≤ ac_age then { q.history with cancer := some cancer_age }
               else q.history
  { hist1 with otherDeath := some ac_age }

/-- numpy statement `xs[i] += 1` on a float array: python negative indices
wrap once by the length; an index out of range raises IndexError (the `tag`
records which array / statement raised). -/
def npWrap (n : ℕ) (i : ℤ) : ℤ := if i < 0 then i + n else i

def npIncrAt (xs : List ℚ) (i : ℤ) (tag : String) : Except String (List ℚ) :=
  if 0 ≤ npWrap xs.length i ∧ (npWrap xs.length i).toNat < xs.length then
    Except.ok (xs.set (npWrap xs.length i).toNat (xs.getD (npWrap xs.length i).toNat 0 + 1))
  else
    Except.error tag

/-- The body of the per-patient loop of DiscreteEventSimulation.run, acting
on one returned patient history `h`: append to the log, increment the
mortality count at the death-age offset, then try to increment the incidence
count at the cancer-age offset, where a missing Cancer key (KeyError) is
caught and skipped but an IndexError propagates. -/
def desStep (START_AGE : ℤ) (log : List History) (inc mort : List ℚ) (h : History) :
    Except String (List History × List ℚ × List ℚ) :=
  match h.otherDeath with
  | none => Except.error "KeyError: Other Death"
  | some d =>
    match npIncrAt mort (d - START_AGE) "IndexError: acMortArr" with
    | Except.error e => Except.error e
    | Except.ok mort2 =>
      match h.cancer with
      | none => Except.ok (log ++ [h], inc, mort2)
      | some ca =>
        match npIncrAt inc (ca - START_AGE) "IndexError: cancerIncArr" with
        | Except.error e => Except.error e
        | Except.ok inc2 => Except.ok (log ++ [h], inc2, mort2)

/-- The per-patient loop of DiscreteEventSimulation.run: patient `i` of the
cohort (constructed as Patient(pid := i, starting_age := START_AGE)) is run
with the draw pair `rng i`, and `k` patients remain to process. -/
def desLoop (START_AGE : ℤ) (condCDF cancer_pdf : List ℚ) (rng : ℕ → ℚ × ℚ) :
    ℕ → ℕ → List History → List ℚ → List ℚ →
    Except String (List History × List ℚ × List ℚ)
  | _, 0, log, inc, mort => Except.ok (log, inc, mort)
  | i, k + 1, log, inc, mort =>
    match desStep START_AGE log inc mort
        ((Patient.init i START_AGE).run condCDF cancer_pdf (rng i).1 (rng i).2) with
    | Except.error e => Except.error e
    | Except.ok (log2, inc2, mort2) =>
      desLoop START_AGE condCDF cancer_pdf rng (i + 1) k log2 inc2 mort2

/-- The final state of DiscreteEventSimulation.run: the log, the raw
mortality-count array and the normalized incidence-rate array. -/
structure DESResult where
  log : List History
  acMortArr : List ℚ
  cancerIncArr : List ℚ
deriving DecidableEq, Repr

/-- The normalization at the end of DiscreteEventSimulation.run:
`num_alive = num_patients - acMortArr.cumsum()` and
`cancerIncArr = 100000 * cancerIncArr / (num_alive + 1)` elementwise.
Note that np.cumsum includes the current bin in each partial sum. -/
def normalizeInc (num_patients : ℕ) (inc mort : List ℚ) : List ℚ :=
  List.zipWith (fun cnt m => 100000 * cnt / ((num_patients : ℚ) - m + 1)) inc (cumsum mort)

/-- DiscreteEventSimulation.run up to (but not including) the normalization:
reset to an empty log and zeroed arrays of length END_AGE - START_AGE + 1,
then the per-patient loop over the whole cohort. -/
def desRunRaw (START_AGE END_AGE : ℤ) (condCDF cancer_pdf : List ℚ)
    (num_patients : ℕ) (rng : ℕ → ℚ × ℚ) :
    Except String (List History × List ℚ × List ℚ) :=
  let n := (END_AGE - START_AGE + 1).toNat
  desLoop START_AGE condCDF cancer_pdf rng 0 num_patients []
    (List.replicate n 0) (List.replicate n 0)

/-- DiscreteEventSimulation.run(cancer_pdf): the per-patient loop followed by
the incidence normalization; returns the final object state. -/
def desRun (START_AGE END_AGE : ℤ) (condCDF cancer_pdf : List ℚ)
    (num_patients : ℕ) (rng : ℕ → ℚ × ℚ) : Except String DESResult :=
  match desRunRaw START_AGE END_AGE condCDF cancer_pdf num_patients rng with
  | Except.error e => Except.error e
  | Except.ok (log, inc, mort) =>
    Except.ok { log := log, acMortArr := mort,
                cancerIncArr := normalizeInc num_patients inc mort }

/-- Written from the words of claim C1 / the specification for comparison
with the code: the incidence rate with an at-risk denominator that counts
only the deaths strictly before each bin (deaths in the bin itself
excluded), i.e. the cumulative death count shifted by one bin. -/
def specIncidenceRate (num_patients : ℕ) (inc mort : List ℚ) : List ℚ :=
  List.zipWith (fun cnt m => 100000 * cnt / ((num_patients : ℚ) - m + 1)) inc
    (0 :: cumsum mort)

/-- python slice index clamping: a negative index is shifted once by the
length, then the result is clamped to [0, n]. -/
def pySliceIdx (n : ℕ) (i : ℤ) : ℕ :=
  if i < 0 then (i + n).toNat else min i.toNat n

/-- python slice xs[a:b]. -/
def pySlice (xs : List ℚ) (a b : ℤ) : List ℚ :=
  (xs.take (pySliceIdx xs.length b)).drop (pySliceIdx xs.length a)

/-- sklearn.metrics.mean_squared_error(y_true, y_pred): the mean of the
squared differences; raises ValueError when the lengths differ or the
arrays are empty (sklearn requires at least one sample). -/
def mean_squared_error (y_true y_pred : List ℚ) : Except String ℚ :=
  if y_true.length = y_pred.length ∧ y_true.length ≠ 0 then
    Except.ok ((List.zipWith (fun a b => (a - b) ^ 2) y_true y_pred).sum / (y_true.length : ℚ))
  else
    Except.error "ValueError"

/-- objective(obs, exp): mean squared error of exp against the slice
obs[1975 - COHORT_YEAR : 2021 - COHORT_YEAR]. -/
def objective (obs expected : List ℚ) (COHORT_YEAR : ℤ) : Except String ℚ :=
  mean_squared_error expected (pySlice obs (1975 - COHORT_YEAR) (2021 - COHORT_YEAR))

/-- The number of elements selected for mutation by the mask
`np.random.random(shape) > mask_size`: the count of draws strictly above
`mask_size`. -/
def selCount (mask_size : ℚ) (us : List ℚ) : ℕ :=
  us.countP (fun u => decide (mask_size < u))

/-- The masked in-place update `candidate[mask] += np.random.uniform(...)`
of `step`: element `i` is selected when its mask draw `us i` strictly
exceeds `mask_size`; the selected elements receive the perturbations `ps`
in index order.  (numpy draws exactly `mask.sum()` perturbations, so `ps`
never underflows on the code path; on underflow the element is kept.) -/
def applyMask (mask_size : ℚ) : List ℚ → List ℚ → List ℚ → List ℚ
  | c :: cs, u :: us, ps =>
    if mask_size < u then
      match ps with
      | p :: ps2 => (c + p) :: applyMask mask_size cs us ps2
      | [] => c :: applyMask mask_size cs us []
    else
      c :: applyMask mask_size cs us ps
  | cs, _, _ => cs

/-- np.clip(x, 0.0, 1.0) on one element. -/
def clip01 (x : ℚ) : ℚ := min 1 (max 0 x)

/-- step(candidate, step_size, mask_size): mask-selected perturbation, then
the external Savitzky-Golay smoothing filter (window 10, degree 3, mode
interp; an external collaborator, modelled as the function parameter
`savgol`), then clipping to [0, 1].  The perturbation draws `perts` model
np.random.uniform(-step_size, step_size, mask.sum()); `step_size` itself
only fixes the range those draws are taken from. -/
def step (savgol : List ℚ → List ℚ) (candidate : List ℚ) (step_size mask_size : ℚ)
    (maskDraws perts : List ℚ) : List ℚ :=
  let _ := step_size
  (savgol (applyMask mask_size candidate maskDraws perts)).map clip01

/-- The Metropolis factor np.exp(-diff / t). -/
noncomputable def metropolis (diff t : ℝ) : ℝ := Real.exp (-diff / t)

/-- The acceptance condition of the annealing loop:
`diff < 0 or np.random.random() < metropolis`, the draw `u` lying in [0,1). -/
def acceptCond (diff : ℚ) (t u : ℝ) : Prop :=
  diff < 0 ∨ u < metropolis (diff : ℝ) t

/-- The mutable state of the annealing loop. -/
structure SAState where
  best : List ℚ
  best_eval : ℚ
  curr : List ℚ
  curr_eval : ℚ

/-- One full evaluation `objective(des.run(pdf).cancerIncArr, cancer_inc)`
of a candidate pdf, with the random draws of that DES run given by `rng`. -/
def evalCandidate (START_AGE END_AGE : ℤ) (condCDF : List ℚ) (num_patients : ℕ)
    (cancer_inc : List ℚ) (COHORT_YEAR : ℤ) (rng : ℕ → ℚ × ℚ) (pdf : List ℚ) :
    Except String ℚ :=
  match desRun START_AGE END_AGE condCDF pdf num_patients rng with
  | Except.error e => Except.error e
  | Except.ok r => objective r.cancerIncArr cancer_inc COHORT_YEAR

open Classical in
/-- The iteration loop of simulated_annealing: at iteration `i` with `k`
iterations remaining, produce a candidate with `stepF i`, evaluate it with
`evalF (i + 1)`, track the best, and accept into the current point by the
Metropolis criterion at temperature start_temp / (1 + log(i + 1)) with
acceptance draw `accDraw i`. -/
noncomputable def saLoop (evalF : ℕ → List ℚ → Except String ℚ)
    (stepF : ℕ → List ℚ → List ℚ) (start_temp : ℝ) (accDraw : ℕ → ℝ) :
    ℕ → ℕ → SAState → Except String SAState
  | _, 0, st => Except.ok st
  | i, k + 1, st =>
    let candidate := stepF i st.curr
    match evalF (i + 1) candidate with
    | Except.error e => Except.error e
    | Except.ok candidate_eval =>
      let st1 := if candidate_eval < st.best_eval then
                   { st with best := candidate, best_eval := candidate_eval }
                 else st
      let t : ℝ := start_temp / (1 + Real.log ((i : ℝ) + 1))
      let st2 := if acceptCond (candidate_eval - st.curr_eval) t (accDraw i) then
                   { st1 with curr := candidate, curr_eval := candidate_eval }
                 else st1
      saLoop evalF stepF start_temp accDraw (i + 1) k st2

/-- simulated_annealing(des, cancer_pdf, cancer_inc, n_iterations, start_temp,
step_size, mask_size): best = copy of cancer_pdf, evaluated once upfront
(draw stream 0), then the loop; returns the best candidate together with the
reported best score.  The randomness of iteration `i` is: DES draws
`desRngs (i + 1)`, mask draws `maskDraws i`, perturbations `perts i`,
acceptance draw `accDraw i`. -/
noncomputable def simulated_annealing (START_AGE END_AGE : ℤ) (condCDF : List ℚ)
    (num_patients : ℕ) (savgol : List ℚ → List ℚ) (desRngs : ℕ → ℕ → ℚ × ℚ)
    (maskDraws perts : ℕ → List ℚ) (accDraw : ℕ → ℝ)
    (cancer_pdf cancer_inc : List ℚ) (COHORT_YEAR : ℤ) (n_iterations : ℕ)
    (start_temp : ℝ) (step_size mask_size : ℚ) : Except String (List ℚ × ℚ) :=
  let evalF : ℕ → List ℚ → Except String ℚ := fun j pdf =>
    evalCandidate START_AGE END_AGE condCDF num_patients cancer_inc COHORT_YEAR
      (desRngs j) pdf
  let stepF : ℕ → List ℚ → List ℚ := fun i x =>
    step savgol x step_size mask_size (maskDraws i) (perts i)
  match evalF 0 cancer_pdf with
  | Except.error e => Except.error e
  | Except.ok best_eval =>
    match saLoop evalF stepF start_temp accDraw 0 n_iterations
        { best := cancer_pdf, best_eval := best_eval,
          curr := cancer_pdf, curr_eval := best_eval } with
    | Except.error e => Except.error e
    | Except.ok st => Except.ok (st.best, st.best_eval)

/-! ### Helper lemmas -/

theorem cumsumFrom_length (acc : ℚ) (xs : List ℚ) :
    (cumsumFrom acc xs).length = xs.length := by
  induction xs generalizing acc with
  | nil => rfl
  | cons x rest ih => simpa [cumsumFrom] using ih (acc + x)

theorem cumsum_length (xs : List ℚ) : (cumsum xs).length = xs.length :=
  cumsumFrom_length 0 xs

theorem zipWith_getD (f : ℚ → ℚ → ℚ) (xs ys : List ℚ) (i : ℕ)
    (hx : i < xs.length) (hy : i < ys.length) :
    (List.zipWith f xs ys).getD i 0 = f (xs.getD i 0) (ys.getD i 0) := by
  induction xs generalizing ys i with
  | nil => simp at hx
  | cons x xs ih =>
    cases ys with
    | nil => simp at hy
    | cons y ys =>
      cases i with
      | zero => rfl
      | succ n =>
        simpa using ih ys n (by simpa using hx) (by simpa using hy)

theorem patient_run_eq (p : Patient) (condCDF cancer_pdf : List ℚ) (u1 u2 : ℚ) :
    p.run condCDF cancer_pdf u1 u2 =
      { healthy := some p.age,
        cancer := if (searchsorted (cumsum cancer_pdf) u2 : ℤ) + p.age
              ≤ (searchsorted condCDF u1 : ℤ) + p.age
            then some ((searchsorted (cumsum cancer_pdf) u2 : ℤ) + p.age) else none,
        otherDeath := some ((searchsorted condCDF u1 : ℤ) + p.age) } := by
  unfold Patient.run Patient.reset
  dsimp only
  split <;> simp_all

/-- C2 (confirmed): Patient.run first resets the history, and the returned
history maps Healthy to the starting age and Other Death to the sampled
death age, and has a Cancer entry exactly when the sampled cancer onset age
is at most the sampled death age. -/
theorem c2_patient_run_history (p : Patient) (condCDF cancer_pdf : List ℚ) (u1 u2 : ℚ) :
    (p.run condCDF cancer_pdf u1 u2).healthy = some p.age ∧
    (p.run condCDF cancer_pdf u1 u2).otherDeath
      = some ((searchsorted condCDF u1 : ℤ) + p.age) ∧
    ((p.run condCDF cancer_pdf u1 u2).cancer
        = some ((searchsorted (cumsum cancer_pdf) u2 : ℤ) + p.age)
      ↔ (searchsorted (cumsum cancer_pdf) u2 : ℤ) + p.age
          ≤ (searchsorted condCDF u1 : ℤ) + p.age) ∧
    ((p.run condCDF cancer_pdf u1 u2).cancer = none
      ↔ ¬ (searchsorted (cumsum cancer_pdf) u2 : ℤ) + p.age
          ≤ (searchsorted condCDF u1 : ℤ) + p.age) := by
  rw [patient_run_eq]
  refine ⟨rfl, rfl, ?_, ?_⟩ <;> dsimp only <;> split <;> simp_all

/-- C8 (confirmed): a patient history with no Cancer entry is skipped
silently by the aggregation loop body: when the mortality increment
succeeds, nothing is raised, the incidence counts are unchanged, and the
mortality count and the log entry are still recorded. -/
theorem c8_missing_cancer_skipped (START_AGE : ℤ) (log : List History)
    (inc mort mort2 : List ℚ) (h : History) (d : ℤ)
    (hc : h.cancer = none) (hd : h.otherDeath = some d)
    (hm : npIncrAt mort (d - START_AGE) "IndexError: acMortArr" = Except.ok mort2) :
    desStep START_AGE log inc mort h = Except.ok (log ++ [h], inc, mort2) := by
  unfold desStep
  simp only [hd, hm, hc]

/-- Witness for C8 at a concrete input. -/
theorem c8_witness :
    desStep 0 [] [0, 0] [0, 0]
        { healthy := some 0, cancer := none, otherDeath := some 0 }
      = Except.ok ([{ healthy := some 0, cancer := none, otherDeath := some 0 }],
          [0, 0], [1, 0]) :=
  c8_missing_cancer_skipped 0 [] [0, 0] [0, 0] [1, 0]
    { healthy := some 0, cancer := none, otherDeath := some 0 } 0 rfl rfl
    (by norm_num [npIncrAt, npWrap])

/-- C1 counterexample: a cohort of one patient who dies at age offset 0 and
gets cancer at age offset 0.  The code divides by
num_patients - cumsum(mort)[0] + 1 = 1 - 1 + 1 = 1 and reports 100000,
whereas the claimed formula (cumulative deaths strictly before the bin)
would divide by 1 - 0 + 1 = 2 and report 50000. -/
theorem c1_counterexample :
    desRun 0 1 [1, 1] [1, 0] 1 (fun _ => (1/2, 1/2))
      = Except.ok { log := [{ healthy := some 0, cancer := some 0, otherDeath := some 0 }],
                    acMortArr := [1, 0], cancerIncArr := [100000, 0] } ∧
    specIncidenceRate 1 [1, 0] [1, 0] = [50000, 0] ∧
    ([100000, 0] : List ℚ) ≠ [50000, 0] := by
  refine ⟨?_, ?_, ?_⟩
  · norm_num [desRun, desRunRaw, desLoop, desStep, npIncrAt, npWrap, Patient.run, Patient.reset,
      Patient.init, searchsorted, cumsum, cumsumFrom, normalizeInc, List.replicate]
  · norm_num [specIncidenceRate, cumsum, cumsumFrom]
  · norm_num

/-- C1 (corrected): in every completed run the incidence rate at offset `a`
is 100000 * incidenceCount[a] / ((population - cumulativeDeaths[up to and
including a]) + 1): np.cumsum includes the deaths of bin `a` itself in the
at-risk adjustment, rather than excluding them as the claim stated. -/
theorem c1_amended (START_AGE END_AGE : ℤ) (condCDF cancer_pdf : List ℚ)
    (num_patients : ℕ) (rng : ℕ → ℚ × ℚ) (log : List History) (inc mort : List ℚ)
    (a : ℕ)
    (hrun : desRunRaw START_AGE END_AGE condCDF cancer_pdf num_patients rng
        = Except.ok (log, inc, mort))
    (ha : a < inc.length) (hb : a < mort.length) :
    ∃ r, desRun START_AGE END_AGE condCDF cancer_pdf num_patients rng = Except.ok r ∧
      r.cancerIncArr.getD a 0
        = 100000 * inc.getD a 0 / ((num_patients : ℚ) - (cumsum mort).getD a 0 + 1) := by
  have h2 : desRun START_AGE END_AGE condCDF cancer_pdf num_patients rng
      = Except.ok { log := log, acMortArr := mort,
                    cancerIncArr := normalizeInc num_patients inc mort } := by
    unfold desRun
    rw [hrun]
  refine ⟨_, h2, ?_⟩
  unfold normalizeInc
  exact zipWith_getD _ inc (cumsum mort) a ha (by simpa [cumsum_length] using hb)

/-- Witness for C1's amended theorem at a concrete run. -/
theorem c1_witness :
    desRunRaw 0 1 [1, 1] [1, 0] 1 (fun _ => (1/2, 1/2))
      = Except.ok ([{ healthy := some 0, cancer := some 0, otherDeath := some 0 }],
          [1, 0], [1, 0]) ∧
    ∃ r, desRun 0 1 [1, 1] [1, 0] 1 (fun _ => (1/2, 1/2)) = Except.ok r ∧
      r.cancerIncArr.getD 0 0
        = 100000 * ([1, 0] : List ℚ).getD 0 0
            / (((1 : ℕ) : ℚ) - (cumsum [1, 0]).getD 0 0 + 1) := by
  have hraw : desRunRaw 0 1 [1, 1] [1, 0] 1 (fun _ => (1/2, 1/2))
      = Except.ok ([{ healthy := some 0, cancer := some 0, otherDeath := some 0 }],
          [1, 0], [1, 0]) := by
    norm_num [desRunRaw, desLoop, desStep, npIncrAt, npWrap, Patient.run, Patient.reset,
      Patient.init, searchsorted, cumsum, cumsumFrom, List.replicate]
  exact ⟨hraw, c1_amended 0 1 [1, 1] [1, 0] 1 (fun _ => (1/2, 1/2))
    [{ healthy := some 0, cancer := some 0, otherDeath := some 0 }]
    [1, 0] [1, 0] 0 hraw (by decide) (by decide)⟩

theorem sum_set_getD_succ (xs : List ℚ) (n : ℕ) (h : n < xs.length) :
    (xs.set n (xs.getD n 0 + 1)).sum = xs.sum + 1 := by
  induction xs generalizing n with
  | nil => simp at h
  | cons x xs ih =>
    cases n with
    | zero => simp [List.sum_cons]; ring
    | succ n =>
      have h2 := ih n (by simpa using h)
      simp only [List.set_cons_succ, List.getD_cons_succ, List.sum_cons, h2]
      ring

theorem npWrap_nonneg (n : ℕ) (i : ℤ) (h0 : 0 ≤ i) : npWrap n i = i :=
  if_neg (not_lt.mpr h0)

theorem npIncrAt_eq_ok (xs : List ℚ) (i : ℤ) (tag : String)
    (h0 : 0 ≤ i) (hlt : i.toNat < xs.length) :
    npIncrAt xs i tag = Except.ok (xs.set i.toNat (xs.getD i.toNat 0 + 1)) := by
  simp only [npIncrAt, npWrap_nonneg xs.length i h0]
  rw [if_pos ⟨h0, hlt⟩]

theorem npIncrAt_ok_facts (xs ys : List ℚ) (i : ℤ) (tag : String)
    (h : npIncrAt xs i tag = Except.ok ys) :
    ys.length = xs.length ∧ ys.sum = xs.sum + 1 := by
  simp only [npIncrAt] at h
  split at h
  next hc =>
    injection h with h3
    subst h3
    exact ⟨List.length_set xs _ _, sum_set_getD_succ xs _ hc.2⟩
  next => exact Except.noConfusion h

theorem npIncrAt_ok_lt (xs ys : List ℚ) (i : ℤ) (tag : String) (h0 : 0 ≤ i)
    (h : npIncrAt xs i tag = Except.ok ys) : i.toNat < xs.length := by
  simp only [npIncrAt, npWrap_nonneg xs.length i h0] at h
  split at h
  next hc => exact hc.2
  next => exact Except.noConfusion h

theorem npIncrAt_error_tag (xs : List ℚ) (i : ℤ) (tag e : String)
    (h : npIncrAt xs i tag = Except.error e) : e = tag := by
  simp only [npIncrAt] at h
  split at h
  next => exact Except.noConfusion h
  next =>
    injection h with h3
    exact h3.symm

theorem desStep_ok_facts (START_AGE : ℤ) (log L : List History) (inc mort I M : List ℚ)
    (h : History)
    (hok : desStep START_AGE log inc mort h = Except.ok (L, I, M)) :
    L = log ++ [h] ∧ M.length = mort.length ∧ I.length = inc.length ∧
      M.sum = mort.sum + 1 ∧ I.sum ≤ inc.sum + 1 := by
  unfold desStep at hok
  cases hd : h.otherDeath with
  | none => rw [hd] at hok; exact Except.noConfusion hok
  | some d =>
    rw [hd] at hok
    dsimp only at hok
    cases hm : npIncrAt mort (d - START_AGE) "IndexError: acMortArr" with
    | error e => rw [hm] at hok; exact Except.noConfusion hok
    | ok mort2 =>
      rw [hm] at hok
      dsimp only at hok
      have hmf := npIncrAt_ok_facts mort mort2 _ _ hm
      cases hc : h.cancer with
      | none =>
        rw [hc] at hok
        dsimp only at hok
        injection hok with h3
        injection h3 with hL h4
        injection h4 with hI hM
        subst hL; subst hI; subst hM
        exact ⟨rfl, hmf.1, rfl, hmf.2, by linarith⟩
      | some ca =>
        rw [hc] at hok
        dsimp only at hok
        cases hi : npIncrAt inc (ca - START_AGE) "IndexError: cancerIncArr" with
        | error e => rw [hi] at hok; exact Except.noConfusion hok
        | ok inc2 =>
          rw [hi] at hok
          dsimp only at hok
          have hif := npIncrAt_ok_facts inc inc2 _ _ hi
          injection hok with h3
          injection h3 with hL h4
          injection h4 with hI hM
          subst hL; subst hI; subst hM
          exact ⟨rfl, hmf.1, hif.1, hmf.2, le_of_eq hif.2⟩

theorem desLoop_sums (START_AGE : ℤ) (condCDF cancer_pdf : List ℚ) (rng : ℕ → ℚ × ℚ) :
    ∀ (k i : ℕ) (log : List History) (inc mort : List ℚ)
      (L : List History) (I M : List ℚ),
      desLoop START_AGE condCDF cancer_pdf rng i k log inc mort = Except.ok (L, I, M) →
      M.sum = mort.sum + k ∧ I.sum ≤ inc.sum + k := by
  intro k
  induction k with
  | zero =>
    intro i log inc mort L I M h
    unfold desLoop at h
    injection h with h3
    injection h3 with hL h4
    injection h4 with hI hM
    subst hI; subst hM
    simp
  | succ k ih =>
    intro i log inc mort L I M h
    unfold desLoop at h
    cases hstep : desStep START_AGE log inc mort
        ((Patient.init i START_AGE).run condCDF cancer_pdf (rng i).1 (rng i).2) with
    | error e => rw [hstep] at h; exact Except.noConfusion h
    | ok t =>
      obtain ⟨log2, inc2, mort2⟩ := t
      rw [hstep] at h
      dsimp only at h
      obtain ⟨-, -, -, hMs, hIs⟩ := desStep_ok_facts _ _ _ _ _ _ _ _ hstep
      obtain ⟨hrM, hrI⟩ := ih (i + 1) log2 inc2 mort2 L I M h
      constructor
      · rw [hrM, hMs]
        push_cast
        ring
      · calc I.sum ≤ inc2.sum + k := hrI
          _ ≤ (inc.sum + 1) + k := by linarith
          _ = inc.sum + (k + 1 : ℕ) := by push_cast; ring

/-- C4 (confirmed): in every completed run over `num_patients` patients the
raw mortality counts sum to the population and the raw incidence counts
(before normalization) sum to at most the population. -/
theorem c4_count_sums (START_AGE END_AGE : ℤ) (condCDF cancer_pdf : List ℚ)
    (num_patients : ℕ) (rng : ℕ → ℚ × ℚ) (L : List History) (I M : List ℚ)
    (h : desRunRaw START_AGE END_AGE condCDF cancer_pdf num_patients rng
        = Except.ok (L, I, M)) :
    M.sum = (num_patients : ℚ) ∧ I.sum ≤ (num_patients : ℚ) := by
  simp only [desRunRaw] at h
  have h2 := desLoop_sums START_AGE condCDF cancer_pdf rng num_patients 0 []
    (List.replicate ((END_AGE - START_AGE + 1).toNat) 0)
    (List.replicate ((END_AGE - START_AGE + 1).toNat) 0) L I M h
  simpa using h2

/-- Witness for C4 at a concrete two-patient run. -/
theorem c4_witness :
    desRunRaw 0 1 [1, 1] [1/2, 1/4] 2 (fun _ => (1/2, 9/10))
      = Except.ok ([{ healthy := some 0, cancer := none, otherDeath := some 0 },
          { healthy := some 0, cancer := none, otherDeath := some 0 }], [0, 0], [2, 0]) ∧
    ([2, 0] : List ℚ).sum = ((2 : ℕ) : ℚ) ∧ ([0, 0] : List ℚ).sum ≤ ((2 : ℕ) : ℚ) := by
  have hraw : desRunRaw 0 1 [1, 1] [1/2, 1/4] 2 (fun _ => (1/2, 9/10))
      = Except.ok ([{ healthy := some 0, cancer := none, otherDeath := some 0 },
          { healthy := some 0, cancer := none, otherDeath := some 0 }], [0, 0], [2, 0]) := by
    norm_num [desRunRaw, desLoop, desStep, npIncrAt, npWrap, Patient.run, Patient.reset,
      Patient.init, searchsorted, cumsum, cumsumFrom, List.replicate]
  exact ⟨hraw, c4_count_sums 0 1 [1, 1] [1/2, 1/4] 2 (fun _ => (1/2, 9/10)) _ _ _ hraw⟩

theorem desStep_patient_error_tag (START_AGE : ℤ) (log : List History)
    (inc mort : List ℚ) (condCDF cancer_pdf : List ℚ) (i : ℕ) (u1 u2 : ℚ)
    (hlen : inc.length = mort.length) (e : String)
    (h : desStep START_AGE log inc mort
        ((Patient.init i START_AGE).run condCDF cancer_pdf u1 u2) = Except.error e) :
    e = "IndexError: acMortArr" := by
  rw [patient_run_eq] at h
  unfold desStep at h
  dsimp only [Patient.init] at h
  rw [add_sub_cancel_right] at h
  cases hm : npIncrAt mort (searchsorted condCDF u1 : ℤ) "IndexError: acMortArr" with
  | error e2 =>
    rw [hm] at h
    dsimp only at h
    injection h with h2
    rw [npIncrAt_error_tag mort _ _ e2 hm] at h2
    exact h2.symm
  | ok mort2 =>
    rw [hm] at h
    dsimp only at h
    split at h
    next hnone => exact Except.noConfusion h
    next ca hsome =>
      by_cases hcond : (searchsorted (cumsum cancer_pdf) u2 : ℤ) + START_AGE
          ≤ (searchsorted condCDF u1 : ℤ) + START_AGE
      · rw [if_pos hcond] at hsome
        injection hsome with hca
        subst hca
        rw [add_sub_cancel_right] at h
        have hdlt := npIncrAt_ok_lt mort mort2 _ _ (Int.natCast_nonneg _) hm
        have hsc : searchsorted (cumsum cancer_pdf) u2 ≤ searchsorted condCDF u1 := by
          have h3 := le_of_add_le_add_right hcond
          exact_mod_cast h3
        rw [npIncrAt_eq_ok inc _ _ (Int.natCast_nonneg _) (by omega)] at h
        exact Except.noConfusion h
      · rw [if_neg hcond] at hsome
        exact Option.noConfusion hsome

theorem desLoop_error_tag (START_AGE : ℤ) (condCDF cancer_pdf : List ℚ)
    (rng : ℕ → ℚ × ℚ) :
    ∀ (k i : ℕ) (log : List History) (inc mort : List ℚ) (e : String),
      inc.length = mort.length →
      desLoop START_AGE condCDF cancer_pdf rng i k log inc mort = Except.error e →
      e = "IndexError: acMortArr" := by
  intro k
  induction k with
  | zero =>
    intro i log inc mort e _ h
    unfold desLoop at h
    exact Except.noConfusion h
  | succ k ih =>
    intro i log inc mort e hlen h
    unfold desLoop at h
    cases hstep : desStep START_AGE log inc mort
        ((Patient.init i START_AGE).run condCDF cancer_pdf (rng i).1 (rng i).2) with
    | error e2 =>
      rw [hstep] at h
      dsimp only at h
      injection h with h2
      rw [h2] at hstep
      exact desStep_patient_error_tag START_AGE log inc mort condCDF cancer_pdf i
        (rng i).1 (rng i).2 hlen e hstep
    | ok t =>
      obtain ⟨log2, inc2, mort2⟩ := t
      rw [hstep] at h
      dsimp only at h
      obtain ⟨-, hM, hI, -, -⟩ := desStep_ok_facts _ _ _ _ _ _ _ _ hstep
      exact ih (i + 1) log2 inc2 mort2 e (by rw [hI, hM, hlen]) h

/-- C10 counterexample: the incidence-count increment can never be the
statement that raises: whenever DiscreteEventSimulation.run fails, the
failure comes from the mortality-count increment, because a Cancer entry is
only recorded when the cancer age offset is at most the death age offset,
and the death age offset was already accepted by the mortality array of the
same length.  So no input at all makes run fail with the incidence
IndexError, refuting the claim as stated. -/
theorem c10_counterexample :
    ¬ ∃ (START_AGE END_AGE : ℤ) (condCDF cancer_pdf : List ℚ) (num_patients : ℕ)
        (rng : ℕ → ℚ × ℚ),
      desRun START_AGE END_AGE condCDF cancer_pdf num_patients rng
        = Except.error "IndexError: cancerIncArr" := by
  rintro ⟨SA, EA, cdf, pdf, n, rng, h⟩
  unfold desRun at h
  cases hr : desRunRaw SA EA cdf pdf n rng with
  | error e =>
    rw [hr] at h
    dsimp only at h
    injection h with h2
    simp only [desRunRaw] at hr
    have h3 := desLoop_error_tag SA cdf pdf rng n 0 [] _ _ e rfl hr
    rw [h2] at h3
    exact absurd h3 (by decide)
  | ok t =>
    obtain ⟨L, I, M⟩ := t
    rw [hr] at h
    dsimp only at h
    exact Except.noConfusion h

theorem desStep_run_total (START_AGE : ℤ) (log : List History) (inc mort : List ℚ)
    (condCDF cancer_pdf : List ℚ) (i : ℕ) (u1 u2 : ℚ)
    (hlen : inc.length = mort.length)
    (hd : searchsorted condCDF u1 < mort.length) :
    ∃ log2 inc2 mort2,
      desStep START_AGE log inc mort
          ((Patient.init i START_AGE).run condCDF cancer_pdf u1 u2)
        = Except.ok (log2, inc2, mort2) ∧
      inc2.length = inc.length ∧ mort2.length = mort.length := by
  rw [patient_run_eq]
  unfold desStep
  dsimp only [Patient.init]
  rw [add_sub_cancel_right]
  rw [npIncrAt_eq_ok mort _ _ (Int.natCast_nonneg _) (by simpa using hd)]
  dsimp only
  by_cases hcond : (searchsorted (cumsum cancer_pdf) u2 : ℤ) + START_AGE
      ≤ (searchsorted condCDF u1 : ℤ) + START_AGE
  · rw [if_pos hcond]
    dsimp only
    rw [add_sub_cancel_right]
    have hsc : searchsorted (cumsum cancer_pdf) u2 ≤ searchsorted condCDF u1 := by
      have h3 := le_of_add_le_add_right hcond
      exact_mod_cast h3
    rw [npIncrAt_eq_ok inc _ _ (Int.natCast_nonneg _) (by simp; omega)]
    exact ⟨_, _, _, rfl, by simp, by simp⟩
  · rw [if_neg hcond]
    exact ⟨_, _, _, rfl, rfl, by simp⟩

theorem desLoop_total (START_AGE : ℤ) (condCDF cancer_pdf : List ℚ) (rng : ℕ → ℚ × ℚ)
    (nb : ℕ) (hall : ∀ j, searchsorted condCDF (rng j).1 < nb) :
    ∀ (k i : ℕ) (log : List History) (inc mort : List ℚ),
      inc.length = nb → mort.length = nb →
      ∃ out, desLoop START_AGE condCDF cancer_pdf rng i k log inc mort = Except.ok out := by
  intro k
  induction k with
  | zero =>
    intro i log inc mort _ _
    exact ⟨(log, inc, mort), by simp [desLoop]⟩
  | succ k ih =>
    intro i log inc mort hi hm
    obtain ⟨log2, inc2, mort2, hstep, hi2, hm2⟩ :=
      desStep_run_total START_AGE log inc mort condCDF cancer_pdf i (rng i).1 (rng i).2
        (by rw [hi, hm]) (by rw [hm]; exact hall i)
    obtain ⟨out, hout⟩ := ih (i + 1) log2 inc2 mort2 (by rw [hi2, hi]) (by rw [hm2, hm])
    refine ⟨out, ?_⟩
    unfold desLoop
    rw [hstep]
    exact hout

/-- C10 (corrected): the aggregation catches only the missing Cancer key; an
out-of-range sampled death-age offset makes the MORTALITY increment (not the
incidence increment, which can never raise once the mortality increment of
the same-length array succeeded) raise an uncaught IndexError, and run is
total when every sampled death-age offset is within the arrays. -/
theorem c10_amended :
    desRun 0 0 [0] [1] 1 (fun _ => (1/2, 1/2)) = Except.error "IndexError: acMortArr" ∧
    ∀ (START_AGE END_AGE : ℤ) (condCDF cancer_pdf : List ℚ) (num_patients : ℕ)
      (rng : ℕ → ℚ × ℚ),
      (∀ j, searchsorted condCDF (rng j).1 < (END_AGE - START_AGE + 1).toNat) →
      ∃ r, desRun START_AGE END_AGE condCDF cancer_pdf num_patients rng
        = Except.ok r := by
  constructor
  · norm_num [desRun, desRunRaw, desLoop, desStep, npIncrAt, npWrap, Patient.run,
      Patient.reset, Patient.init, searchsorted, cumsum, cumsumFrom, List.replicate]
  · intro SA EA cdf pdf n rng hall
    obtain ⟨⟨L, I, M⟩, hout⟩ := desLoop_total SA cdf pdf rng _ hall n 0 []
      (List.replicate ((EA - SA + 1).toNat) 0) (List.replicate ((EA - SA + 1).toNat) 0)
      (by simp) (by simp)
    have hraw : desRunRaw SA EA cdf pdf n rng = Except.ok (L, I, M) := by
      simp only [desRunRaw]
      exact hout
    refine ⟨{ log := L, acMortArr := M, cancerIncArr := normalizeInc n I M }, ?_⟩
    unfold desRun
    rw [hraw]

/-- Witness for C10's amended theorem at a concrete in-bounds input. -/
theorem c10_witness :
    ∃ r, desRun 0 0 [1] [1] 1 (fun _ => (1/2, 1/2)) = Except.ok r :=
  c10_amended.2 0 0 [1] [1] 1 (fun _ => (1/2, 1/2))
    (fun j => by norm_num [searchsorted])

theorem sum_sq_diff_nonneg (xs ys : List ℚ) :
    0 ≤ (List.zipWith (fun a b => (a - b) ^ 2) xs ys).sum := by
  induction xs generalizing ys with
  | nil => simp
  | cons x xs ih =>
    cases ys with
    | nil => simp
    | cons y ys =>
      simpa using add_nonneg (sq_nonneg (x - y)) (ih ys)

theorem sum_sq_diff_self (xs : List ℚ) :
    (List.zipWith (fun a b => (a - b) ^ 2) xs xs).sum = 0 := by
  induction xs with
  | nil => rfl
  | cons x xs ih => simp [ih]

theorem pySlice_sublist (xs : List ℚ) (a b : ℤ) : (pySlice xs a b).Sublist xs := by
  unfold pySlice
  exact (List.drop_sublist _ _).trans (List.take_sublist _ _)

theorem pySlice_eq_of_length (xs : List ℚ) (a b : ℤ)
    (h : (pySlice xs a b).length = xs.length) : pySlice xs a b = xs :=
  (pySlice_sublist xs a b).eq_of_length h

/-- C5 counterexample: for the empty curve the slice lengths match (0 = 0)
but objective raises ValueError inside mean_squared_error (sklearn requires
at least one sample) instead of returning 0. -/
theorem c5_counterexample :
    (pySlice ([] : List ℚ) (1975 - 1975) (2021 - 1975)).length = ([] : List ℚ).length ∧
    objective ([] : List ℚ) [] 1975 = Except.error "ValueError" :=
  ⟨rfl, rfl⟩

/-- C5 (corrected): objective computes the mean squared error of the
expected curve against the window slice of the observed curve whenever the
lengths agree and the window is nonempty; every returned value is
non-negative; and objective(x, x) = 0 whenever the slice lengths match and
x is nonempty (for the empty curve, mean_squared_error raises instead). -/
theorem c5_amended :
    (∀ (obs expected : List ℚ) (COHORT_YEAR : ℤ) (r : ℚ),
        objective obs expected COHORT_YEAR = Except.ok r → 0 ≤ r) ∧
    (∀ (obs expected : List ℚ) (COHORT_YEAR : ℤ),
        expected.length = (pySlice obs (1975 - COHORT_YEAR) (2021 - COHORT_YEAR)).length →
        expected ≠ [] →
        objective obs expected COHORT_YEAR = Except.ok
          ((List.zipWith (fun a b => (a - b) ^ 2) expected
              (pySlice obs (1975 - COHORT_YEAR) (2021 - COHORT_YEAR))).sum
            / (expected.length : ℚ))) ∧
    (∀ (x : List ℚ) (COHORT_YEAR : ℤ),
        (pySlice x (1975 - COHORT_YEAR) (2021 - COHORT_YEAR)).length = x.length →
        x ≠ [] →
        objective x x COHORT_YEAR = Except.ok 0) := by
  refine ⟨?_, ?_, ?_⟩
  · intro obs expected COHORT_YEAR r h
    unfold objective mean_squared_error at h
    split at h
    next =>
      injection h with h2
      subst h2
      exact div_nonneg (sum_sq_diff_nonneg _ _) (by positivity)
    next => exact Except.noConfusion h
  · intro obs expected COHORT_YEAR hlen hne
    unfold objective mean_squared_error
    rw [if_pos ⟨hlen, fun h0 => hne (List.length_eq_zero.mp h0)⟩]
  · intro x COHORT_YEAR hlen hne
    have hs := pySlice_eq_of_length x _ _ hlen
    unfold objective mean_squared_error
    rw [hs]
    rw [if_pos ⟨rfl, fun h0 => hne (List.length_eq_zero.mp h0)⟩]
    rw [sum_sq_diff_self]
    rw [zero_div]

/-- Witness for C5's amended theorem at a concrete nonempty curve. -/
theorem c5_witness : objective [3] [3] 1975 = Except.ok 0 :=
  c5_amended.2.2 [3] 1975 rfl (by simp)

theorem selCount_cons (m x : ℚ) (xs : List ℚ) :
    selCount m (x :: xs) = selCount m xs + (if m < x then 1 else 0) := by
  simp [selCount, List.countP_cons]

theorem selCount_anti (m1 m2 : ℚ) (h : m1 ≤ m2) (us : List ℚ) :
    selCount m2 us ≤ selCount m1 us := by
  induction us with
  | nil => simp [selCount]
  | cons x xs ih =>
    rw [selCount_cons, selCount_cons]
    have h2 : (if m2 < x then 1 else 0) ≤ (if m1 < x then 1 else 0) := by
      by_cases hx : m2 < x
      · rw [if_pos hx, if_pos (lt_of_le_of_lt h hx)]
      · rw [if_neg hx]
        split <;> omega
    exact Nat.add_le_add ih h2

theorem selCount_take_lt (m : ℚ) (us : List ℚ) (i : ℕ) (hi : i < us.length)
    (hsel : m < us.getD i 0) : selCount m (us.take i) < selCount m us := by
  induction us generalizing i with
  | nil => simp at hi
  | cons u us ih =>
    cases i with
    | zero =>
      simp only [List.take_zero]
      rw [selCount_cons]
      have hu : m < u := by simpa using hsel
      rw [if_pos hu]
      have h0 : selCount m ([] : List ℚ) = 0 := rfl
      omega
    | succ n =>
      have h2 := ih n (by simpa using hi) (by simpa using hsel)
      rw [List.take_succ_cons, selCount_cons, selCount_cons]
      omega

theorem applyMask_length (m : ℚ) :
    ∀ (c u p : List ℚ), (applyMask m c u p).length = c.length := by
  intro c
  induction c with
  | nil => intro u p; rfl
  | cons x cs ih =>
    intro u p
    cases u with
    | nil => rfl
    | cons v us =>
      by_cases hv : m < v
      · cases p with
        | nil =>
          simp only [applyMask, if_pos hv]
          simpa using ih us []
        | cons q ps =>
          simp only [applyMask, if_pos hv]
          simpa using ih us ps
      · simp only [applyMask, if_neg hv]
        simpa using ih us p

theorem applyMask_getD (m : ℚ) :
    ∀ (c u p : List ℚ) (i : ℕ), u.length = c.length → selCount m u ≤ p.length →
      i < c.length →
      (applyMask m c u p).getD i 0 =
        if m < u.getD i 0 then c.getD i 0 + p.getD (selCount m (u.take i)) 0
        else c.getD i 0 := by
  intro c
  induction c with
  | nil => intro u p i _ _ hi; simp at hi
  | cons x cs ih =>
    intro u p i hu hp hi
    cases u with
    | nil => simp at hu
    | cons v us =>
      by_cases hv : m < v
      · rw [selCount_cons, if_pos hv] at hp
        cases p with
        | nil => simp at hp
        | cons q ps =>
          simp only [applyMask, if_pos hv]
          cases i with
          | zero =>
            simp only [List.take_zero, List.getD_cons_zero]
            rw [if_pos hv]
            rfl
          | succ n =>
            have h2 := ih us ps n (by simpa using hu)
              (by simp only [List.length_cons] at hp; omega) (by simpa using hi)
            simp only [List.getD_cons_succ, List.take_succ_cons]
            rw [h2, selCount_cons, if_pos hv]
            split <;> rfl
      · rw [selCount_cons, if_neg hv] at hp
        simp only [applyMask, if_neg hv]
        cases i with
        | zero => simp [hv]
        | succ n =>
          have h2 := ih us p n (by simpa using hu) (by omega) (by simpa using hi)
          simp only [List.getD_cons_succ, List.take_succ_cons]
          rw [h2, selCount_cons, if_neg hv]
          simp

/-- C6 (confirmed): in step, element `i` is mutated exactly when its mask
draw strictly exceeds mask_size (so a larger mask_size selects no more
elements, the anti-monotonicity conjunct), and each selected element gets
the next unused perturbation draw (lying in [-step_size, step_size] when the
draws do) added to it before smoothing; unselected elements are unchanged. -/
theorem c6_mask_selection (mask_size step_size : ℚ) (candidate maskDraws perts : List ℚ)
    (i : ℕ) (hu : maskDraws.length = candidate.length)
    (hp : perts.length = selCount mask_size maskDraws)
    (hrange : ∀ q ∈ perts, -step_size ≤ q ∧ q ≤ step_size)
    (hi : i < candidate.length) :
    ((mask_size < maskDraws.getD i 0 →
        (applyMask mask_size candidate maskDraws perts).getD i 0
          = candidate.getD i 0 + perts.getD (selCount mask_size (maskDraws.take i)) 0 ∧
        -step_size ≤ perts.getD (selCount mask_size (maskDraws.take i)) 0 ∧
        perts.getD (selCount mask_size (maskDraws.take i)) 0 ≤ step_size) ∧
      (¬ mask_size < maskDraws.getD i 0 →
        (applyMask mask_size candidate maskDraws perts).getD i 0 = candidate.getD i 0)) ∧
    ∀ m2, mask_size ≤ m2 → selCount m2 maskDraws ≤ selCount mask_size maskDraws := by
  have hmain := applyMask_getD mask_size candidate maskDraws perts i hu
    (le_of_eq hp.symm) hi
  refine ⟨⟨?_, ?_⟩, fun m2 hm2 => selCount_anti mask_size m2 hm2 maskDraws⟩
  · intro hsel
    have hlt : selCount mask_size (maskDraws.take i) < perts.length := by
      rw [hp]
      exact selCount_take_lt mask_size maskDraws i (by omega) hsel
    have hmem : perts.getD (selCount mask_size (maskDraws.take i)) 0 ∈ perts := by
      rw [List.getD_eq_getElem perts 0 hlt]
      exact List.getElem_mem hlt
    exact ⟨by rw [hmain, if_pos hsel], (hrange _ hmem).1, (hrange _ hmem).2⟩
  · intro hsel
    rw [hmain, if_neg hsel]

/-- Witness for C6 at a concrete input: element 0 is selected (draw 1 > 0)
and receives the single perturbation 3 drawn from [-3, 3]. -/
theorem c6_witness :
    (((0 : ℚ) < ([1, -1] : List ℚ).getD 0 0 →
        (applyMask 0 [1, 2] [1, -1] [3]).getD 0 0
          = ([1, 2] : List ℚ).getD 0 0
              + ([3] : List ℚ).getD (selCount 0 (([1, -1] : List ℚ).take 0)) 0 ∧
        -(3 : ℚ) ≤ ([3] : List ℚ).getD (selCount 0 (([1, -1] : List ℚ).take 0)) 0 ∧
        ([3] : List ℚ).getD (selCount 0 (([1, -1] : List ℚ).take 0)) 0 ≤ 3) ∧
      (¬ (0 : ℚ) < ([1, -1] : List ℚ).getD 0 0 →
        (applyMask 0 [1, 2] [1, -1] [3]).getD 0 0 = ([1, 2] : List ℚ).getD 0 0)) ∧
    ∀ m2, (0 : ℚ) ≤ m2 → selCount m2 [1, -1] ≤ selCount 0 [1, -1] :=
  c6_mask_selection 0 3 [1, 2] [1, -1] [3] 0 rfl (by decide) (by decide) (by decide)

/-- C7 (confirmed): step returns an array of the same shape as its input
(given that the external smoothing filter preserves shape, as scipy's
savgol_filter does), and every element of the result lies in [0, 1]
whatever the perturbations and the smoothing produce, because of the final
clip. -/
theorem c7_step_bounds (savgol : List ℚ → List ℚ) (candidate maskDraws perts : List ℚ)
    (step_size mask_size : ℚ)
    (hsav : ∀ xs : List ℚ, (savgol xs).length = xs.length) :
    (step savgol candidate step_size mask_size maskDraws perts).length
        = candidate.length ∧
    ∀ x ∈ step savgol candidate step_size mask_size maskDraws perts,
      0 ≤ x ∧ x ≤ 1 := by
  constructor
  · unfold step
    rw [List.length_map, hsav, applyMask_length]
  · intro x hx
    unfold step at hx
    obtain ⟨y, -, rfl⟩ := List.mem_map.mp hx
    unfold clip01
    exact ⟨le_min (by norm_num) (le_max_left 0 y), min_le_left 1 _⟩

/-- Witness for C7 with the identity function standing for the shape
preserving smoothing filter. -/
theorem c7_witness :
    (step (fun xs => xs) [2, -1] 1 0 [1, -1] [3]).length = ([2, -1] : List ℚ).length ∧
    ∀ x ∈ step (fun xs => xs) [2, -1] 1 0 [1, -1] [3], 0 ≤ x ∧ x ≤ 1 :=
  c7_step_bounds (fun xs => xs) [2, -1] [1, -1] [3] 1 0 (fun _ => rfl)

/-- C3 (confirmed): the acceptance rule of the annealing loop accepts every
strictly improving candidate through its first disjunct, and when the
candidate score equals the current score it accepts for every acceptance
draw in [0, 1), since the Metropolis factor exp(-0 / t) equals 1. -/
theorem c3_acceptance (candidate_eval curr_eval : ℚ) (t u : ℝ)
    (h0 : 0 ≤ u) (h1 : u < 1) :
    (candidate_eval < curr_eval → acceptCond (candidate_eval - curr_eval) t u) ∧
    (candidate_eval = curr_eval → acceptCond (candidate_eval - curr_eval) t u) := by
  constructor
  · intro hlt
    exact Or.inl (sub_neg.mpr hlt)
  · intro heq
    right
    rw [heq, sub_self]
    unfold metropolis
    rw [Rat.cast_zero, neg_zero, zero_div, Real.exp_zero]
    exact h1

/-- Witness for C3 at equal scores with acceptance draw one half. -/
theorem c3_witness : acceptCond ((5 : ℚ) - 5) 2 (1 / 2) :=
  (c3_acceptance 5 5 2 (1 / 2) (by norm_num) (by norm_num)).2 rfl

theorem saLoop_zero (evalF : ℕ → List ℚ → Except String ℚ)
    (stepF : ℕ → List ℚ → List ℚ) (start_temp : ℝ) (accDraw : ℕ → ℝ)
    (i : ℕ) (st : SAState) :
    saLoop evalF stepF start_temp accDraw i 0 st = Except.ok st := rfl

/-- C9 (confirmed): with zero iterations the annealing loop body never runs
and simulated_annealing returns the initial pdf together with the single
upfront objective evaluation of that pdf. -/
theorem c9_zero_iterations (START_AGE END_AGE : ℤ) (condCDF : List ℚ)
    (num_patients : ℕ) (savgol : List ℚ → List ℚ) (desRngs : ℕ → ℕ → ℚ × ℚ)
    (maskDraws perts : ℕ → List ℚ) (accDraw : ℕ → ℝ)
    (cancer_pdf cancer_inc : List ℚ) (COHORT_YEAR : ℤ)
    (start_temp : ℝ) (step_size mask_size : ℚ) (e : ℚ)
    (h : evalCandidate START_AGE END_AGE condCDF num_patients cancer_inc COHORT_YEAR
        (desRngs 0) cancer_pdf = Except.ok e) :
    simulated_annealing START_AGE END_AGE condCDF num_patients savgol desRngs maskDraws
      perts accDraw cancer_pdf cancer_inc COHORT_YEAR 0 start_temp step_size mask_size
      = Except.ok (cancer_pdf, e) := by
  unfold simulated_annealing
  dsimp only
  rw [h]
  dsimp only
  rw [saLoop_zero]

/-- Witness for C9 at a concrete configuration whose upfront evaluation
succeeds with score zero. -/
theorem c9_witness :
    simulated_annealing 0 1 [] 0 (fun xs => xs) (fun _ _ => (0, 0)) (fun _ => [])
      (fun _ => []) (fun _ => 0) [0, 0] [0, 0] 1975 0 1 0 0
      = Except.ok ([0, 0], 0) :=
  c9_zero_iterations 0 1 [] 0 (fun xs => xs) (fun _ _ => (0, 0)) (fun _ => [])
    (fun _ => []) (fun _ => 0) [0, 0] [0, 0] 1975 1 0 0 0
    (by norm_num [evalCandidate, desRun, desRunRaw, desLoop, normalizeInc, cumsum,
      cumsumFrom, List.replicate, objective, mean_squared_error, pySlice, pySliceIdx])
